import Mathlib

/-!
Verification of the gst-dots watch/render/sync core (src/index.js).

The development shallowly embeds the two chokidar watcher callbacks:
* the registry watcher (lines 65-74): keeps the in-memory ordered list
  `dots` of wrapper-page entries in sync with the artifact directory and
  pings the livereload server;
* the source watcher (lines 30-63): derives the svg/html artifact paths
  from a description file name, spawns the renderer, instantiates the
  wrapper-page template and writes/deletes the artifacts.

File-system effects are modelled as a map from paths to optional
contents; the asynchronous template read and wrapper write are passed in
as explicit `Except` results.
-/

namespace GstDots

/-- The chokidar event kinds the callbacks branch on: `add`, `unlink`,
and anything else (`change`, `addDir`, ...), which both callbacks treat
identically (no branch matches). -/
inductive WatchEvent
  | add
  | unlink
  | other
deriving DecidableEq, Repr

/-- JS `String.prototype.replace` with a string pattern replaces only the
first occurrence of the pattern (used at src/index.js lines 31, 32, 44
and 66).  Character-list version: scan left to right and substitute at
the first position where the pattern is a prefix. -/
def replaceFirstL (pat rep : List Char) : List Char → List Char
  | [] => if pat = [] then rep else []
  | c :: rest =>
      if pat.isPrefixOf (c :: rest) then rep ++ (c :: rest).drop pat.length
      else c :: replaceFirstL pat rep rest

/-- JS `s.replace(pat, rep)` for a string pattern. -/
def jsReplace (s pat rep : String) : String :=
  ⟨replaceFirstL pat.data rep.data s.data⟩

/-- `path.basename`: the final path component, i.e. everything after the
last `/`. -/
def basename (s : String) : String :=
  ⟨(s.data.reverse.takeWhile (fun c => c ≠ '/')).reverse⟩

/-- `const svgDir = './public/svg/'` (src/index.js line 24). -/
def svgDir : String := "./public/svg/"

/-- `svgDir + path.basename(dotFile).replace('.dot', '.svg')`
(src/index.js line 31). -/
def svg_file (dotFile : String) : String :=
  svgDir ++ jsReplace (basename dotFile) ".dot" ".svg"

/-- `svgDir + path.basename(dotFile).replace('.dot', '.html')`
(src/index.js line 32). -/
def html_file (dotFile : String) : String :=
  svgDir ++ jsReplace (basename dotFile) ".dot" ".html"

/-- The image base name substituted into the template
(src/index.js line 44): `path.basename(dotFile).replace('.dot', '.svg')`. -/
def svgBasename (dotFile : String) : String :=
  jsReplace (basename dotFile) ".dot" ".svg"

/-- The template's placeholder token (src/index.js line 44). -/
def placeholder : String := "\x7b\x7b svg_file_path \x7d\x7d"

/-- One registry mutation (src/index.js lines 67-72): the event kind
together with the already-derived entry string.  `index < 0` in the JS
source is exactly non-membership, and `splice(indexOf(x), 1)` removes the
first occurrence, i.e. `List.erase`. -/
def registryApply (dots : List String) (e : WatchEvent × String) : List String :=
  if e.1 = WatchEvent.add ∧ e.2 ∉ dots then dots ++ [e.2]
  else if e.1 = WatchEvent.unlink ∧ e.2 ∈ dots then dots.erase e.2
  else dots

/-- The whole registry-watcher callback (src/index.js lines 65-74): strip
the `public/` prefix from the reported path, mutate `dots`, and call
`liveReloadServer.refresh("/")` exactly once, unconditionally.  The
second component counts the refresh signals emitted by this invocation. -/
def registryWatcherStep (event : WatchEvent) (p : String) (dots : List String) :
    List String × Nat :=
  (registryApply dots (event, jsReplace p "public/" ""), 1)

/-- Folding a sequence of registry events over the initially empty
registry, at the `registryApply` level (entries already derived). -/
def regApplyAll (events : List (WatchEvent × String)) : List String :=
  events.foldl registryApply []

/-- Folding a sequence of raw watcher events (event kind and reported
path) through the full callback, starting from the empty registry. -/
def regRun (events : List (WatchEvent × String)) : List String :=
  events.foldl (fun d e => (registryWatcherStep e.1 e.2 d).1) []

/-! ### Spec-side counting for the net-odd characterisation

The spec counts, per path, the `added` events net of the `removed`
events, where an `added` for an already-present path and a `removed` for
an absent path contribute nothing (its idempotence clauses).  The
counter below tracks, per path, whether the path is currently present
and adds `+1` for an effective add, `-1` for an effective remove. -/

/-- Net count of added events of one path's event trace, continued from
a given presence state: an add of a present path and a remove of an
absent path count zero. -/
def netAddsFrom : Bool → List WatchEvent → Int
  | _, [] => 0
  | present, WatchEvent.add :: rest =>
      (if present then 0 else 1) + netAddsFrom true rest
  | present, WatchEvent.unlink :: rest =>
      (if present then -1 else 0) + netAddsFrom false rest
  | present, WatchEvent.other :: rest => netAddsFrom present rest

/-- Net count of added events of one path's trace, starting absent. -/
def netAdds (t : List WatchEvent) : Int := netAddsFrom false t

/-- Presence of a path after its event trace, from a given start state:
an add makes it present, a remove absent, anything else changes
nothing. -/
def presAfter : Bool → List WatchEvent → Bool
  | b, [] => b
  | _, WatchEvent.add :: rest => presAfter true rest
  | _, WatchEvent.unlink :: rest => presAfter false rest
  | b, WatchEvent.other :: rest => presAfter b rest

/-- The subsequence of event kinds reported for one path. -/
def traceOf (p : String) (events : List (WatchEvent × String)) : List WatchEvent :=
  (events.filter (fun e => e.2 = p)).map Prod.fst

/-! ### The render pipeline (source watcher callback, lines 30-63)

The artifact directory is a map from paths to optional contents.  The
callback's asynchronous collaborators are explicit arguments: the result
of `fs.readFile('templates/single_graph_template.html', ...)` and the
result of the `fs.writeFile` call.  The state also records every
subprocess spawned, every write attempted and every console line, so
that "the pipeline only writes files" is expressible. -/

/-- In-memory system state: artifact directory contents, spawned
renderer invocations, attempted wrapper writes, console log, and the
registry list `dots` (src/index.js line 16). -/
structure RenderState where
  fs : String → Option String
  spawns : List (String × List String)
  writes : List (String × String)
  logs : List String
  dots : List String

/-- `fs.existsSync`. -/
def existsSync (fs : String → Option String) (f : String) : Bool :=
  (fs f).isSome

/-- `fs.rmSync` on a plain file: removes it, or throws `ENOENT` when the
path does not exist. -/
def rmSync (fs : String → Option String) (f : String) :
    Except String (String → Option String) :=
  if (fs f).isSome then Except.ok (fun g => if g = f then none else fs g)
  else Except.error "ENOENT"

/-- The `add` branch (src/index.js lines 34-54): spawn the renderer for
the svg, then, once the template read resolves, either log the read
error and stop, or substitute the svg base name for the placeholder and
attempt the wrapper-page write, whose own success or failure is only
logged. -/
def addBranch (dotFile : String) (tmplRes : Except String String)
    (writeRes : Except String Unit) (st : RenderState) : RenderState :=
  let st := { st with
    spawns := st.spawns ++ [("dot", ["-Tsvg", dotFile, "-o", svg_file dotFile])] }
  match tmplRes with
  | Except.error e => { st with logs := st.logs ++ [e] }
  | Except.ok template =>
      let graphHtml := jsReplace template placeholder (svgBasename dotFile)
      let st := { st with writes := st.writes ++ [(html_file dotFile, graphHtml)] }
      match writeRes with
      | Except.error e => { st with logs := st.logs ++ [e] }
      | Except.ok _ =>
          { st with
            fs := fun g => if g = html_file dotFile then some graphHtml else st.fs g,
            logs := st.logs ++ [html_file dotFile ++ " has been saved!"] }

/-- The `unlink` branch (src/index.js lines 55-62): remove the svg
artifact if it exists, then the html artifact if it exists.  An
unguarded `rmSync` failure would propagate as an error. -/
def unlinkBranch (dotFile : String) (st : RenderState) :
    Except String RenderState :=
  (if existsSync st.fs (svg_file dotFile) then rmSync st.fs (svg_file dotFile)
   else pure st.fs).bind fun fs1 =>
  (if existsSync fs1 (html_file dotFile) then rmSync fs1 (html_file dotFile)
   else pure fs1).bind fun fs2 =>
  pure { st with fs := fs2 }

/-- The whole source-watcher callback (src/index.js lines 30-63): derive
the artifact paths and dispatch on the event kind; events other than
`add` and `unlink` do nothing. -/
def sourceWatcherStep (event : WatchEvent) (dotFile : String)
    (tmplRes : Except String String) (writeRes : Except String Unit)
    (st : RenderState) : Except String RenderState :=
  match event with
  | WatchEvent.add => Except.ok (addBranch dotFile tmplRes writeRes st)
  | WatchEvent.unlink => unlinkBranch dotFile st
  | WatchEvent.other => Except.ok st

/-! ## Basic facts about one registry mutation -/

theorem registryApply_add_mem {dots : List String} {p : String} (h : p ∈ dots) :
    registryApply dots (WatchEvent.add, p) = dots := by
  simp [registryApply, h]

theorem registryApply_add_not_mem {dots : List String} {p : String} (h : p ∉ dots) :
    registryApply dots (WatchEvent.add, p) = dots ++ [p] := by
  simp [registryApply, h]

theorem registryApply_unlink (dots : List String) (p : String) :
    registryApply dots (WatchEvent.unlink, p) = dots.erase p := by
  by_cases h : p ∈ dots
  · simp [registryApply, h]
  · simp [registryApply, h, List.erase_of_not_mem h]

theorem registryApply_other (dots : List String) (p : String) :
    registryApply dots (WatchEvent.other, p) = dots := by
  simp [registryApply]

theorem registryApply_nodup {dots : List String} (e : WatchEvent × String)
    (h : dots.Nodup) : (registryApply dots e).Nodup := by
  obtain ⟨ev, r⟩ := e
  cases ev
  · by_cases hm : r ∈ dots
    · rw [registryApply_add_mem hm]; exact h
    · rw [registryApply_add_not_mem hm]
      exact (List.nodup_append).mpr ⟨h, List.nodup_singleton r, by simpa using hm⟩
  · rw [registryApply_unlink]; exact h.erase r
  · rw [registryApply_other]; exact h

theorem mem_registryApply_of_ne {dots : List String} {q : String}
    (e : WatchEvent × String) (hne : q ≠ e.2) :
    (q ∈ registryApply dots e ↔ q ∈ dots) := by
  obtain ⟨ev, r⟩ := e
  simp only at hne
  cases ev
  · by_cases hm : r ∈ dots
    · rw [registryApply_add_mem hm]
    · rw [registryApply_add_not_mem hm]; simp [hne]
  · rw [registryApply_unlink]; exact List.mem_erase_of_ne hne
  · rw [registryApply_other]

/-! ## Facts about folding event sequences over the registry -/

theorem foldl_registryApply_nodup (es : List (WatchEvent × String)) :
    ∀ dots : List String, dots.Nodup → (es.foldl registryApply dots).Nodup := by
  induction es with
  | nil => intro dots h; exact h
  | cons e es ih =>
      intro dots h
      exact ih (registryApply dots e) (registryApply_nodup e h)

theorem not_mem_foldl_of_no_add (q : String) (es : List (WatchEvent × String)) :
    ∀ dots : List String, q ∉ dots → (WatchEvent.add, q) ∉ es →
      q ∉ es.foldl registryApply dots := by
  induction es with
  | nil => intro dots h _; exact h
  | cons e es ih =>
      intro dots h hna
      have hna' : (WatchEvent.add, q) ∉ es := fun hmem => hna (List.mem_cons_of_mem _ hmem)
      apply ih (registryApply dots e) _ hna'
      obtain ⟨ev, r⟩ := e
      by_cases hr : q = r
      · subst hr
        cases ev
        · exact absurd (List.mem_cons_self _ _) hna
        · rw [registryApply_unlink]
          exact fun hmem => h (List.erase_subset _ _ hmem)
        · rw [registryApply_other]; exact h
      · rw [mem_registryApply_of_ne (ev, r) hr]; exact h

theorem mem_foldl_of_no_unlink (p : String) (es : List (WatchEvent × String)) :
    ∀ dots : List String, p ∈ dots → (WatchEvent.unlink, p) ∉ es →
      p ∈ es.foldl registryApply dots := by
  induction es with
  | nil => intro dots h _; exact h
  | cons e es ih =>
      intro dots h hnu
      have hnu' : (WatchEvent.unlink, p) ∉ es := fun hmem => hnu (List.mem_cons_of_mem _ hmem)
      apply ih (registryApply dots e) _ hnu'
      obtain ⟨ev, r⟩ := e
      by_cases hr : p = r
      · subst hr
        cases ev
        · by_cases hm : p ∈ dots
          · rwa [registryApply_add_mem hm]
          · rw [registryApply_add_not_mem hm]; simp
        · exact absurd (List.mem_cons_self _ _) hnu
        · rw [registryApply_other]; exact h
      · rw [mem_registryApply_of_ne (ev, r) hr]; exact h

/-- Removing any entry other than `p` and `q` from the registry keeps
`p` before `q`; so does any other single event. -/
theorem sublist_registryApply {dots : List String} {p q : String}
    (e : WatchEvent × String) (hp : e ≠ (WatchEvent.unlink, p))
    (hq : e ≠ (WatchEvent.unlink, q)) (h : List.Sublist [p, q] dots) :
    List.Sublist [p, q] (registryApply dots e) := by
  obtain ⟨ev, r⟩ := e
  cases ev
  · by_cases hm : r ∈ dots
    · rwa [registryApply_add_mem hm]
    · rw [registryApply_add_not_mem hm]
      exact h.trans (List.sublist_append_left dots [r])
  · have hrp : r ≠ p := fun he => hp (by rw [he])
    have hrq : r ≠ q := fun he => hq (by rw [he])
    rw [registryApply_unlink]
    have h2 : List.Sublist ([p, q].erase r) (dots.erase r) := h.erase r
    rwa [List.erase_of_not_mem (by simp [hrp, hrq])] at h2
  · rwa [registryApply_other]

theorem sublist_foldl_registryApply {p q : String} (es : List (WatchEvent × String)) :
    ∀ dots : List String, List.Sublist [p, q] dots → (WatchEvent.unlink, p) ∉ es →
      (WatchEvent.unlink, q) ∉ es → List.Sublist [p, q] (es.foldl registryApply dots) := by
  induction es with
  | nil => intro dots h _ _; exact h
  | cons e es ih =>
      intro dots h hp hq
      apply ih (registryApply dots e)
      · exact sublist_registryApply e
          (fun he => hp (he ▸ List.mem_cons_self _ _))
          (fun he => hq (he ▸ List.mem_cons_self _ _)) h
      · exact fun hmem => hp (List.mem_cons_of_mem _ hmem)
      · exact fun hmem => hq (List.mem_cons_of_mem _ hmem)

/-! ## Claim theorems -/

/-- Claim C1, counterexample to the statement as written: an `add` event
for an already-present entry is an idempotent no-op (the registry is
unchanged), yet the callback still emits one refresh signal, not zero,
because `liveReloadServer.refresh("/")` sits outside the conditional. -/
theorem refresh_on_noop_counterexample :
    (registryWatcherStep WatchEvent.add "public/svg/a.html" ["svg/a.html"]).1 =
      ["svg/a.html"] ∧
    (registryWatcherStep WatchEvent.add "public/svg/a.html" ["svg/a.html"]).2 ≠ 0 := by
  decide

/-- Claim C1, amended: the registry-watcher callback emits exactly one
refresh signal per event, whether or not the event changes the
registry's observable content. -/
theorem refresh_exactly_once_per_event (event : WatchEvent) (p : String)
    (dots : List String) : (registryWatcherStep event p dots).2 = 1 := rfl

/-- Claim C4: an add event for a path already present, and a removal
event for a path absent, leave the registry's entry collection exactly
unchanged. -/
theorem noop_events_leave_registry_unchanged (dots : List String) (p q : String) :
    (p ∈ dots → registryApply dots (WatchEvent.add, p) = dots) ∧
    (q ∉ dots → registryApply dots (WatchEvent.unlink, q) = dots) :=
  ⟨fun h => registryApply_add_mem h,
   fun h => by rw [registryApply_unlink]; exact List.erase_of_not_mem h⟩

theorem noop_events_leave_registry_unchanged_witness :
    (("a" : String) ∈ ["a", "b"] ∧
      registryApply ["a", "b"] (WatchEvent.add, "a") = ["a", "b"]) ∧
    (("c" : String) ∉ ["a", "b"] ∧
      registryApply ["a", "b"] (WatchEvent.unlink, "c") = ["a", "b"]) :=
  ⟨⟨by decide, (noop_events_leave_registry_unchanged ["a", "b"] "a" "c").1 (by decide)⟩,
   ⟨by decide, (noop_events_leave_registry_unchanged ["a", "b"] "a" "c").2 (by decide)⟩⟩

/-- Claim C5: removing an entry preserves the relative order of the
remaining entries, and the end-to-end scenario add `a`, add `b`, remove
`a`, re-add `a` yields the snapshot `[b, a]`: the re-added entry is
appended at the end, not restored to its original position. -/
theorem removal_preserves_order_and_readd_appends :
    (∀ (dots : List String) (p q r : String),
      r ≠ p → r ≠ q → List.Sublist [p, q] dots →
      List.Sublist [p, q] (registryApply dots (WatchEvent.unlink, r))) ∧
    regRun [(WatchEvent.add, "public/svg/a.html"), (WatchEvent.add, "public/svg/b.html"),
        (WatchEvent.unlink, "public/svg/a.html"), (WatchEvent.add, "public/svg/a.html")] =
      ["svg/b.html", "svg/a.html"] := by
  constructor
  · intro dots p q r hrp hrq h
    exact sublist_registryApply (WatchEvent.unlink, r) (by simp [hrp]) (by simp [hrq]) h
  · decide

theorem removal_preserves_order_and_readd_appends_witness :
    (("c" : String) ≠ "a" ∧ ("c" : String) ≠ "b" ∧
      List.Sublist ["a", "b"] ["a", "c", "b"]) ∧
    List.Sublist ["a", "b"] (registryApply ["a", "c", "b"] (WatchEvent.unlink, "c")) :=
  ⟨⟨by decide, by decide, by decide⟩,
   removal_preserves_order_and_readd_appends.1 ["a", "c", "b"] "a" "b" "c"
     (by decide) (by decide) (by decide)⟩

/-- Claim C9: the path derivation replaces only the first occurrence of
`.dot`: a base name with two `.dot` substrings keeps the trailing one,
and a watched name merely ending in `dot` without containing `.dot` is
left unchanged, so the image and wrapper-page paths coincide. -/
theorem replace_first_dot_occurrence_only :
    jsReplace "a.dot.dot" ".dot" ".svg" = "a.svg.dot" ∧
    jsReplace "a.dot.dot" ".dot" ".html" = "a.html.dot" ∧
    svg_file "a.dot.dot" = "./public/svg/a.svg.dot" ∧
    html_file "a.dot.dot" = "./public/svg/a.html.dot" ∧
    jsReplace "graphdot" ".dot" ".svg" = "graphdot" ∧
    svg_file "graphdot" = html_file "graphdot" ∧
    svg_file "graphdot" = "./public/svg/graphdot" := by
  decide

/-- Never-removed entries inserted in a given order stay in that order:
auxiliary induction for claim C3. -/
theorem insertion_order_aux (l1 l2 l3 : List (WatchEvent × String)) (p q : String)
    (hq1 : (WatchEvent.add, q) ∉ l1) (hq2 : (WatchEvent.add, q) ∉ l2)
    (hp2 : (WatchEvent.unlink, p) ∉ l2)
    (hp3 : (WatchEvent.unlink, p) ∉ l3) (hq3 : (WatchEvent.unlink, q) ∉ l3)
    (hpq : p ≠ q) :
    List.Sublist [p, q]
      (regApplyAll (l1 ++ (WatchEvent.add, p) :: l2 ++ (WatchEvent.add, q) :: l3)) := by
  unfold regApplyAll
  rw [List.foldl_append, List.foldl_cons, List.foldl_append, List.foldl_cons]
  set d1 := List.foldl registryApply [] l1 with hd1
  set d2 := registryApply d1 (WatchEvent.add, p) with hd2
  set d3 := List.foldl registryApply d2 l2 with hd3
  have hqd1 : q ∉ d1 := not_mem_foldl_of_no_add q l1 [] (by simp) hq1
  have hpd2 : p ∈ d2 := by
    rw [hd2]
    by_cases hm : p ∈ d1
    · rwa [registryApply_add_mem hm]
    · rw [registryApply_add_not_mem hm]; simp
  have hqd2 : q ∉ d2 := by
    rw [hd2, mem_registryApply_of_ne (WatchEvent.add, p) hpq.symm]
    exact hqd1
  have hpd3 : p ∈ d3 := mem_foldl_of_no_unlink p l2 d2 hpd2 hp2
  have hqd3 : q ∉ d3 := not_mem_foldl_of_no_add q l2 d2 hqd2 hq2
  rw [registryApply_add_not_mem hqd3]
  apply sublist_foldl_registryApply l3 _ _ hp3 hq3
  exact List.Sublist.append (List.singleton_sublist.mpr hpd3) (List.Sublist.refl [q])

/-- Claim C3: after any applied event sequence the registry has no
duplicate entries, and two entries that are never removed appear in
their insertion order, whatever events for other paths are interleaved. -/
theorem registry_nodup_and_insertion_order
    (events l1 l2 l3 : List (WatchEvent × String)) (p q : String)
    (hsplit : events = l1 ++ (WatchEvent.add, p) :: l2 ++ (WatchEvent.add, q) :: l3)
    (hq1 : (WatchEvent.add, q) ∉ l1) (hq2 : (WatchEvent.add, q) ∉ l2)
    (hup : (WatchEvent.unlink, p) ∉ events) (huq : (WatchEvent.unlink, q) ∉ events)
    (hpq : p ≠ q) :
    (regApplyAll events).Nodup ∧ List.Sublist [p, q] (regApplyAll events) := by
  constructor
  · exact foldl_registryApply_nodup events [] List.nodup_nil
  · subst hsplit
    have hp2 : (WatchEvent.unlink, p) ∉ l2 := fun h => hup (by simp [h])
    have hp3 : (WatchEvent.unlink, p) ∉ l3 := fun h => hup (by simp [h])
    have hq3 : (WatchEvent.unlink, q) ∉ l3 := fun h => huq (by simp [h])
    exact insertion_order_aux l1 l2 l3 p q hq1 hq2 hp2 hp3 hq3 hpq

theorem registry_nodup_and_insertion_order_witness :
    (([(WatchEvent.add, ("a" : String)), (WatchEvent.add, "b")] =
        [] ++ (WatchEvent.add, "a") :: [] ++ (WatchEvent.add, "b") :: []) ∧
      (WatchEvent.add, ("b" : String)) ∉ ([] : List (WatchEvent × String)) ∧
      (WatchEvent.unlink, ("a" : String)) ∉
        [(WatchEvent.add, ("a" : String)), (WatchEvent.add, "b")] ∧
      (WatchEvent.unlink, ("b" : String)) ∉
        [(WatchEvent.add, ("a" : String)), (WatchEvent.add, "b")] ∧
      ("a" : String) ≠ "b") ∧
    ((regApplyAll [(WatchEvent.add, "a"), (WatchEvent.add, "b")]).Nodup ∧
      List.Sublist ["a", "b"]
        (regApplyAll [(WatchEvent.add, "a"), (WatchEvent.add, "b")])) :=
  ⟨⟨by decide, by decide, by decide, by decide, by decide⟩,
   registry_nodup_and_insertion_order
     [(WatchEvent.add, "a"), (WatchEvent.add, "b")] [] [] [] "a" "b"
     (by decide) (by decide) (by decide) (by decide) (by decide) (by decide)⟩

/-! ## The net-odd characterisation (claim C2) -/

theorem netAddsFrom_eq (t : List WatchEvent) :
    ∀ b : Bool, netAddsFrom b t =
      (if presAfter b t = true then (1 : Int) else 0) -
        (if b = true then (1 : Int) else 0) := by
  induction t with
  | nil => intro b; cases b <;> simp [netAddsFrom, presAfter]
  | cons e rest ih =>
      intro b
      cases e <;> cases b <;>
        (simp [netAddsFrom, presAfter, ih true, ih false]
         try split_ifs <;> ring)

/-- The spec's net add count of a trace is odd exactly when the trace
leaves the path present. -/
theorem odd_netAdds_iff (t : List WatchEvent) :
    Odd (netAdds t) ↔ presAfter false t = true := by
  rw [netAdds, netAddsFrom_eq t false]
  cases h : presAfter false t <;> simp [h, Int.odd_iff]

/-- Membership in the registry after a fold is decided by the per-path
trace alone: no interleaving of events for other paths interferes. -/
theorem mem_foldl_iff_presAfter (es : List (WatchEvent × String)) :
    ∀ (dots : List String) (p : String), dots.Nodup →
      (p ∈ es.foldl registryApply dots ↔
        presAfter (decide (p ∈ dots)) (traceOf p es) = true) := by
  induction es with
  | nil =>
      intro dots p _
      simp [traceOf, presAfter]
  | cons e es ih =>
      intro dots p h
      obtain ⟨ev, r⟩ := e
      have h' := registryApply_nodup (ev, r) h
      by_cases hr : r = p
      · subst hr
        have ht : traceOf r ((ev, r) :: es) = ev :: traceOf r es := by
          simp [traceOf, List.filter_cons]
        rw [List.foldl_cons, ih _ _ h', ht]
        cases ev
        · have hm : r ∈ registryApply dots (WatchEvent.add, r) := by
            by_cases hmem : r ∈ dots
            · rw [registryApply_add_mem hmem]; exact hmem
            · rw [registryApply_add_not_mem hmem]; simp
          simp [presAfter, hm]
        · have hm : r ∉ registryApply dots (WatchEvent.unlink, r) := by
            rw [registryApply_unlink]
            intro hmem
            exact ((h.mem_erase_iff).mp hmem).1 rfl
          simp [presAfter, hm]
        · rw [registryApply_other]
          simp [presAfter]
      · have ht : traceOf p ((ev, r) :: es) = traceOf p es := by
          simp [traceOf, List.filter_cons, hr]
        have hiff : (p ∈ registryApply dots (ev, r)) ↔ (p ∈ dots) :=
          mem_registryApply_of_ne (ev, r) (fun he => hr he.symm)
        rw [List.foldl_cons, ih _ _ h', ht, decide_eq_decide.mpr hiff]

/-- Claim C2: starting from the empty registry, a path is in the final
registry exactly when its own trace has a net-odd count of added events
(adds of a present path and removes of an absent path counting zero),
and no path ever has more than one entry. -/
theorem final_registry_net_odd_characterisation
    (events : List (WatchEvent × String)) (p : String) :
    (p ∈ regApplyAll events ↔ Odd (netAdds (traceOf p events))) ∧
    (regApplyAll events).count p ≤ 1 := by
  constructor
  · rw [regApplyAll, mem_foldl_iff_presAfter events [] p List.nodup_nil,
      odd_netAdds_iff]
    simp
  · exact List.nodup_iff_count_le_one.mp
      (foldl_registryApply_nodup events [] List.nodup_nil) p

/-! ## First-occurrence replacement at a unique occurrence (claim C6) -/

theorem replaceFirstL_of_prefix {pat hay : List Char} (rep : List Char)
    (h : List.IsPrefix pat hay) :
    replaceFirstL pat rep hay = rep ++ hay.drop pat.length := by
  cases hay with
  | nil =>
      have hp : pat = [] := List.prefix_nil.mp h
      simp [replaceFirstL, hp]
  | cons c rest =>
      have hp : pat.isPrefixOf (c :: rest) = true := List.isPrefixOf_iff_prefix.mpr h
      simp [replaceFirstL, hp]

theorem replaceFirstL_cons_of_not_prefix {pat : List Char} {c : Char}
    {rest : List Char} (rep : List Char) (h : ¬ List.IsPrefix pat (c :: rest)) :
    replaceFirstL pat rep (c :: rest) = c :: replaceFirstL pat rep rest := by
  have hp : pat.isPrefixOf (c :: rest) = false := by
    rw [Bool.eq_false_iff]
    intro he
    exact h (List.isPrefixOf_iff_prefix.mp he)
  simp [replaceFirstL, hp]

/-- If the pattern has no occurrence strictly before the split point,
the first-occurrence replace rewrites the occurrence at the split. -/
theorem replaceFirstL_of_unique (pat rep post : List Char) :
    ∀ pre : List Char,
      (∀ i : Nat, i < pre.length →
        pat.isPrefixOf ((pre ++ (pat ++ post)).drop i) = false) →
      replaceFirstL pat rep (pre ++ (pat ++ post)) = pre ++ (rep ++ post) := by
  intro pre
  induction pre with
  | nil =>
      intro _
      rw [List.nil_append, List.nil_append,
        replaceFirstL_of_prefix rep (List.prefix_append pat post),
        List.drop_left]
  | cons c pre ih =>
      intro h
      have h0 : ¬ List.IsPrefix pat ((c :: pre) ++ (pat ++ post)) := by
        intro hp
        have hfalse := h 0 (by simp)
        rw [List.drop_zero] at hfalse
        have htrue := List.isPrefixOf_iff_prefix.mpr hp
        exact Bool.noConfusion (htrue.symm.trans hfalse)
      calc replaceFirstL pat rep ((c :: pre) ++ (pat ++ post))
          = c :: replaceFirstL pat rep (pre ++ (pat ++ post)) :=
            replaceFirstL_cons_of_not_prefix rep h0
        _ = c :: (pre ++ (rep ++ post)) := by
            rw [ih (fun i hi => by
              have hh := h (i + 1) (by simpa using Nat.succ_lt_succ hi)
              simp only [List.cons_append, List.drop_succ_cons] at hh
              exact hh)]
        _ = (c :: pre) ++ (rep ++ post) := rfl

/-- Claim C6: for the description file `pipeline.dot` the derived
artifact paths are `pipeline.svg` and `pipeline.html` in the fixed
output directory; when the template read succeeds and the placeholder
occurs only at one position, the renderer is spawned on the svg path and
the attempted wrapper write targets `pipeline.html` with the placeholder
replaced by the literal `pipeline.svg`. -/
theorem pipeline_artifacts_and_template_substitution
    (pre post : String)
    (huniq : ∀ i : Nat, i < pre.data.length →
      placeholder.data.isPrefixOf
        (((pre ++ placeholder ++ post) : String).data.drop i) = false)
    (writeRes : Except String Unit) (st : RenderState) :
    svg_file "pipeline.dot" = "./public/svg/pipeline.svg" ∧
    html_file "pipeline.dot" = "./public/svg/pipeline.html" ∧
    (addBranch "pipeline.dot" (Except.ok (pre ++ placeholder ++ post)) writeRes st).spawns
      = st.spawns ++
        [("dot", ["-Tsvg", "pipeline.dot", "-o", "./public/svg/pipeline.svg"])] ∧
    (addBranch "pipeline.dot" (Except.ok (pre ++ placeholder ++ post)) writeRes st).writes
      = st.writes ++ [("./public/svg/pipeline.html", pre ++ "pipeline.svg" ++ post)] := by
  have hsvg : svg_file "pipeline.dot" = "./public/svg/pipeline.svg" := by decide
  have hhtml : html_file "pipeline.dot" = "./public/svg/pipeline.html" := by decide
  have hbase : svgBasename "pipeline.dot" = "pipeline.svg" := by decide
  have hdata : ((pre ++ placeholder ++ post) : String).data =
      pre.data ++ (placeholder.data ++ post.data) := by
    rw [String.data_append, String.data_append, List.append_assoc]
  have hsubst : jsReplace (pre ++ placeholder ++ post) placeholder
      (svgBasename "pipeline.dot") = pre ++ "pipeline.svg" ++ post := by
    rw [hbase]
    apply String.ext
    show replaceFirstL placeholder.data ("pipeline.svg" : String).data
        ((pre ++ placeholder ++ post) : String).data = _
    rw [hdata, replaceFirstL_of_unique placeholder.data _ post.data pre.data
      (fun i hi => by rw [← hdata]; exact huniq i hi)]
    rw [String.data_append, String.data_append, List.append_assoc]
  refine ⟨hsvg, hhtml, ?_, ?_⟩
  · cases writeRes <;> simp [addBranch, hsvg]
  · cases writeRes <;> simp [addBranch, hhtml, hsubst]

theorem pipeline_artifacts_and_template_substitution_witness :
    (∀ i : Nat, i < ("A" : String).data.length →
      placeholder.data.isPrefixOf
        ((("A" ++ placeholder ++ "B") : String).data.drop i) = false) ∧
    (svg_file "pipeline.dot" = "./public/svg/pipeline.svg" ∧
      html_file "pipeline.dot" = "./public/svg/pipeline.html" ∧
      (addBranch "pipeline.dot" (Except.ok ("A" ++ placeholder ++ "B"))
          (Except.ok ()) ⟨fun _ => none, [], [], [], []⟩).spawns
        = ([] : List (String × List String)) ++
          [("dot", ["-Tsvg", "pipeline.dot", "-o", "./public/svg/pipeline.svg"])] ∧
      (addBranch "pipeline.dot" (Except.ok ("A" ++ placeholder ++ "B"))
          (Except.ok ()) ⟨fun _ => none, [], [], [], []⟩).writes
        = ([] : List (String × String)) ++
          [("./public/svg/pipeline.html", "A" ++ "pipeline.svg" ++ "B")]) :=
  ⟨by decide,
   pipeline_artifacts_and_template_substitution "A" "B" (by decide)
     (Except.ok ()) ⟨fun _ => none, [], [], [], []⟩⟩

/-! ## The unlink branch of the render pipeline (claims C7, C8, C10) -/

/-- The guarded removal `if (fs.existsSync(f)) fs.rmSync(f)` never
fails, leaves `f` absent, and touches no other path. -/
theorem rmIfExists_spec (fs : String → Option String) (f : String) :
    ∃ fs', (if existsSync fs f then rmSync fs f else pure fs) = Except.ok fs' ∧
      fs' f = none ∧ ∀ g, g ≠ f → fs' g = fs g := by
  by_cases h : (fs f).isSome
  · refine ⟨fun g => if g = f then none else fs g, ?_, by simp, fun g hg => by simp [hg]⟩
    simp [existsSync, rmSync, h]
  · refine ⟨fs, ?_, Option.not_isSome_iff_eq_none.mp h, fun g _ => rfl⟩
    rw [if_neg (by simpa [existsSync] using h)]
    rfl

/-- After the guarded pair of removals, both artifact paths are absent
and no error was raised: shared shape of the unlink branch. -/
theorem unlinkBranch_spec (st : RenderState) (dotFile : String) :
    ∃ fs2 : String → Option String,
      unlinkBranch dotFile st = Except.ok { st with fs := fs2 } ∧
      fs2 (svg_file dotFile) = none ∧ fs2 (html_file dotFile) = none := by
  obtain ⟨fs1, e1, hf1, ho1⟩ := rmIfExists_spec st.fs (svg_file dotFile)
  obtain ⟨fs2, e2, hf2, ho2⟩ := rmIfExists_spec fs1 (html_file dotFile)
  refine ⟨fs2, ?_, ?_, hf2⟩
  · have step : unlinkBranch dotFile st
        = (if existsSync fs1 (html_file dotFile) then rmSync fs1 (html_file dotFile)
           else pure fs1).bind (fun fs' => pure { st with fs := fs' }) := by
      unfold unlinkBranch
      rw [e1]
      rfl
    rw [step, e2]
    rfl
  · by_cases he : svg_file dotFile = html_file dotFile
    · rw [he]; exact hf2
    · rw [ho2 _ he]
      exact hf1

/-- Claim C7: the unlink branch deletes whichever derived artifacts
exist, raises no error when either is absent, and afterwards both
derived artifact paths are absent. -/
theorem unlink_branch_idempotent_delete (st : RenderState) (dotFile : String) :
    ∃ st' : RenderState, unlinkBranch dotFile st = Except.ok st' ∧
      st'.fs (svg_file dotFile) = none ∧ st'.fs (html_file dotFile) = none := by
  obtain ⟨fs2, e, h1, h2⟩ := unlinkBranch_spec st dotFile
  exact ⟨{ st with fs := fs2 }, e, h1, h2⟩

theorem addBranch_dots (dotFile : String) (tmplRes : Except String String)
    (writeRes : Except String Unit) (st : RenderState) :
    (addBranch dotFile tmplRes writeRes st).dots = st.dots := by
  cases tmplRes <;> cases writeRes <;> rfl

/-- Claim C8: the render pipeline never mutates the registry: whatever
event the source watcher delivers and however the template read and the
wrapper write turn out, a successful invocation leaves `dots` exactly as
it was. -/
theorem render_pipeline_preserves_registry (event : WatchEvent) (dotFile : String)
    (tmplRes : Except String String) (writeRes : Except String Unit)
    (st st' : RenderState)
    (h : sourceWatcherStep event dotFile tmplRes writeRes st = Except.ok st') :
    st'.dots = st.dots := by
  cases event
  · have hst : st' = addBranch dotFile tmplRes writeRes st :=
      (Except.ok.injEq _ _).mp h.symm
    rw [hst, addBranch_dots]
  · obtain ⟨fs2, e, _, _⟩ := unlinkBranch_spec st dotFile
    have h2 : unlinkBranch dotFile st = Except.ok st' := h
    rw [e] at h2
    have hst : st' = { st with fs := fs2 } := (Except.ok.injEq _ _).mp h2.symm
    rw [hst]
  · have hst : st' = st := (Except.ok.injEq _ _).mp h.symm
    rw [hst]

theorem render_pipeline_preserves_registry_witness :
    (sourceWatcherStep WatchEvent.other "x.dot" (Except.error "e") (Except.ok ())
        ⟨fun _ => none, [], [], [], ["svg/a.html"]⟩ =
      Except.ok ⟨fun _ => none, [], [], [], ["svg/a.html"]⟩) ∧
    (RenderState.dots ⟨fun _ => none, [], [], [], ["svg/a.html"]⟩ =
      RenderState.dots ⟨fun _ => none, [], [], [], ["svg/a.html"]⟩) :=
  ⟨rfl,
   render_pipeline_preserves_registry WatchEvent.other "x.dot" (Except.error "e")
     (Except.ok ()) ⟨fun _ => none, [], [], [], ["svg/a.html"]⟩
     ⟨fun _ => none, [], [], [], ["svg/a.html"]⟩ rfl⟩

/-- Claim C10: when the template read fails, the handler only logs the
read error: no wrapper write is attempted, the file system is untouched,
and in particular the wrapper-page path keeps its prior state. -/
theorem template_read_failure_skips_write (dotFile e : String)
    (writeRes : Except String Unit) (st : RenderState) :
    (addBranch dotFile (Except.error e) writeRes st).fs = st.fs ∧
    (addBranch dotFile (Except.error e) writeRes st).writes = st.writes ∧
    (addBranch dotFile (Except.error e) writeRes st).logs = st.logs ++ [e] ∧
    (addBranch dotFile (Except.error e) writeRes st).fs (html_file dotFile) =
      st.fs (html_file dotFile) :=
  ⟨rfl, rfl, rfl, rfl⟩

end GstDots
